import Mathlib

/-!
Shallow embedding of HotSpot's stack watermark barrier
(src/hotspot/share/runtime/stackWatermark.cpp).

The external frame walker is modelled as a list of `Frame` records, read
from stack top toward stack bottom.  Each frame carries its stack-pointer
address (`sp`), whether `StackWatermark::has_barrier` holds for it
(`barrier`), whether it is a safepoint-blob frame needing resolution to
its sender (`isSafepointBlob`), and the sender's address (`senderSp`).
Addresses are natural numbers; the code uses 0 as the distinguished
"no address" value, exactly as `uintptr_t(0)` does in the source.

The per-frame processing callback `_owner.process(f, ...)` is opaque to
this core; we record its invocations as `WEvent.processFrame` events.
The release stores to `_watermark` and `_state` and the lock
release/reacquire in `process_all` are likewise recorded as events, so
that ordering claims about them can be stated.
-/

/-- A stack frame as seen through the external frame walker. -/
structure Frame where
  sp : Nat
  barrier : Bool
  isSafepointBlob : Bool
  senderSp : Nat
deriving DecidableEq

/-- The address `is_frame_safe` compares: a safepoint-blob frame is first
resolved to its sender (`fr = fr.sender(&reg_map)`), otherwise the frame's
own `sp()` is used. -/
def Frame.resolvedSp (f : Frame) : Nat :=
  if f.isSafepointBlob then f.senderSp else f.sp

/-- `StackWatermarkIterator`: the two boundary addresses `_callee` and
`_caller` plus the remaining frame stream (`_frame_stream` together with
the cached `_is_done`, which is `frames = []`). -/
structure StackWatermarkIterator where
  callee : Nat
  caller : Nat
  frames : List Frame
deriving DecidableEq

/-- `StackWatermarkIterator::has_next`: the frame stream is not done. -/
def StackWatermarkIterator.hasNext (it : StackWatermarkIterator) : Bool :=
  !it.frames.isEmpty

/-- `StackWatermarkIterator::set_watermark(sp)`: no-op when the stream is
done; otherwise folds `sp` into the `(callee, caller)` pair: first
`_callee`, then `_caller`, then shift `_callee ← _caller`,
`_caller ← sp`. -/
def StackWatermarkIterator.setWatermark (it : StackWatermarkIterator) (sp : Nat) :
    StackWatermarkIterator :=
  if !it.hasNext then it
  else if it.callee = 0 then { it with callee := sp }
  else if it.caller = 0 then { it with caller := sp }
  else { it with callee := it.caller, caller := sp }

/-- The loop body of `StackWatermarkIterator::process_one`: visit frames,
advancing past each, until a frame with a barrier has been processed or
the stream is exhausted.  Returns (remaining frames, the `sp` local after
the loop, the frames visited in order). -/
def processOneLoop : List Frame → Nat → List Frame × Nat × List Frame
  | [], sp => ([], sp, [])
  | f :: rest, _ =>
    if f.barrier then (rest, f.sp, [f])
    else
      let r := processOneLoop rest f.sp
      (r.1, r.2.1, f :: r.2.2)

/-- `StackWatermarkIterator::process_one`: run the visiting loop, then
`set_watermark(sp)` on the advanced stream.  Also returns the list of
frames passed to the processing callback. -/
def StackWatermarkIterator.processOne (it : StackWatermarkIterator) :
    StackWatermarkIterator × List Frame :=
  let r := processOneLoop it.frames 0
  (StackWatermarkIterator.setWatermark ⟨it.callee, it.caller, r.1⟩ r.2.1, r.2.2)

/-- Observable actions of the watermark controller: processing-callback
invocations, the release stores to `_watermark` and `_state`, and the
lock release/reacquire pair inside `process_all`. -/
inductive WEvent where
  | processFrame (f : Frame)
  | storeWatermark (v : Nat)
  | storeState (epoch : Nat) (isDone : Bool)
  | unlock
  | lock
deriving DecidableEq

/-- `StackWatermark`: the `_state` word (epoch and is_done bits, the
packing being immaterial here), the published `_watermark`, and the owned
`_iterator` (NULL modelled as `none`).  The thread pointer, lock and
`_next`/`_kind` fields carry no state relevant to these claims. -/
structure StackWatermark where
  stateEpoch : Nat
  stateDone : Bool
  watermark : Nat
  iterator : Option StackWatermarkIterator
deriving DecidableEq

/-- The `StackWatermark` constructor: state = (epoch, is_done = true),
watermark = 0, no iterator. -/
def mkStackWatermark (epoch : Nat) : StackWatermark :=
  ⟨epoch, true, 0, none⟩

/-- `_iterator != NULL && _iterator->has_next()`. -/
def itHasNext : Option StackWatermarkIterator → Bool
  | some it => it.hasNext
  | none => false

/-- Remaining (unvisited) frames of the controller's cursor, if any. -/
def framesOf (s : StackWatermark) : List Frame :=
  match s.iterator with
  | some it => it.frames
  | none => []

/-- `StackWatermark::should_start_iteration`: the cached epoch differs
from `epoch_id()` (the global epoch `g`, supplied by the environment). -/
def StackWatermark.shouldStartIteration (s : StackWatermark) (g : Nat) : Bool :=
  s.stateEpoch != g

/-- `StackWatermark::update_watermark`: if the cursor exists and has
unvisited frames, release-store `_watermark ← callee` then
`_state ← (epoch, done=false)`; otherwise release-store `_watermark ← 0`
then `_state ← (epoch, done=true)`.  The returned event list records the
two stores in program order. -/
def StackWatermark.updateWatermark (s : StackWatermark) (g : Nat) :
    StackWatermark × List WEvent :=
  match s.iterator with
  | some it =>
    if it.hasNext then
      ({ s with watermark := it.callee, stateEpoch := g, stateDone := false },
       [WEvent.storeWatermark it.callee, WEvent.storeState g false])
    else
      ({ s with watermark := 0, stateEpoch := g, stateDone := true },
       [WEvent.storeWatermark 0, WEvent.storeState g true])
  | none =>
    ({ s with watermark := 0, stateEpoch := g, stateDone := true },
     [WEvent.storeWatermark 0, WEvent.storeState g true])

/-- `StackWatermark::start_iteration_impl(context)`: discard any previous
cursor; if the thread has frames (`has_last_Java_frame`), build a fresh
cursor and call its `process_one` three times; otherwise set the cursor
to NULL.  Always finish with `update_watermark`.  `stack` is the thread's
current frame list. -/
def StackWatermark.startIterationImpl (s : StackWatermark) (g : Nat) (stack : List Frame) :
    StackWatermark × List WEvent :=
  if stack.isEmpty then
    StackWatermark.updateWatermark { s with iterator := none } g
  else
    let p1 := StackWatermarkIterator.processOne ⟨0, 0, stack⟩
    let p2 := p1.1.processOne
    let p3 := p2.1.processOne
    let u := StackWatermark.updateWatermark { s with iterator := some p3.1 } g
    (u.1, (p1.2 ++ p2.2 ++ p3.2).map WEvent.processFrame ++ u.2)

/-- `StackWatermark::process_one`: if stale, start a new iteration; else
if a cursor exists, one `StackWatermarkIterator::process_one` call
followed by `update_watermark`; else nothing. -/
def StackWatermark.processOne (s : StackWatermark) (g : Nat) (stack : List Frame) :
    StackWatermark × List WEvent :=
  if s.shouldStartIteration g then
    s.startIterationImpl g stack
  else
    match s.iterator with
    | some it =>
      let p := it.processOne
      let u := StackWatermark.updateWatermark { s with iterator := some p.1 } g
      (u.1, p.2.map WEvent.processFrame ++ u.2)
    | none => (s, [])

/-- `StackWatermark::start_iteration`: double-checked staleness test; in
this sequential model the two checks collapse into one. -/
def StackWatermark.startIteration (s : StackWatermark) (g : Nat) (stack : List Frame) :
    StackWatermark × List WEvent :=
  if s.shouldStartIteration g then s.startIterationImpl g stack else (s, [])

/-- The loop of `StackWatermarkIterator::process_all`, threading the
cursor registers (`callee`, `caller`), the remaining frames, the
per-poll counter `i` (`frames_per_poll_gc = 5`) and the owning
controller (read and written by the `update_watermark` calls at yield
points).  The third result component records whether every
`assert(f.sp() >= _caller)` check passed. -/
def processAllAux (g : Nat) :
    List Frame → Nat → Nat → Nat → StackWatermark →
    StackWatermark × List WEvent × Bool
  | [], callee, caller, _, s =>
      ({ s with iterator := some ⟨callee, caller, []⟩ }, [], true)
  | f :: rest, callee, caller, i, s =>
      let ok := decide (caller ≤ f.sp)
      if f.barrier then
        let it2 := StackWatermarkIterator.setWatermark ⟨callee, caller, rest⟩ f.sp
        if i + 1 = 5 then
          let u := StackWatermark.updateWatermark { s with iterator := some it2 } g
          let r := processAllAux g rest it2.callee it2.caller 0 u.1
          (r.1, WEvent.processFrame f :: (u.2 ++ [WEvent.unlock, WEvent.lock] ++ r.2.1),
           ok && r.2.2)
        else
          let r := processAllAux g rest it2.callee it2.caller (i + 1)
                     { s with iterator := some it2 }
          (r.1, WEvent.processFrame f :: r.2.1, ok && r.2.2)
      else
        let r := processAllAux g rest callee caller i
                   { s with iterator := some ⟨callee, caller, rest⟩ }
        (r.1, WEvent.processFrame f :: r.2.1, ok && r.2.2)

/-- `StackWatermark::finish_iteration(context)`: under the lock, start an
iteration if stale, drain the cursor with `process_all` if one exists,
then `update_watermark`. -/
def StackWatermark.finishIteration (s : StackWatermark) (g : Nat) (stack : List Frame) :
    StackWatermark × List WEvent × Bool :=
  let a := if s.shouldStartIteration g then s.startIterationImpl g stack else (s, [])
  let d :=
    match a.1.iterator with
    | some it => processAllAux g it.frames it.callee it.caller 0 a.1
    | none => (a.1, [], true)
  let u := StackWatermark.updateWatermark d.1 g
  (u.1, a.2 ++ d.2.1 ++ u.2, d.2.2)

/-- `StackWatermark::is_frame_safe(fr)`: false when the cached epoch is
not current; else true when done; else, with a cursor present, resolve a
safepoint-blob frame to its sender and compare the address against
`_iterator->caller()`; with no cursor, true. -/
def StackWatermark.isFrameSafe (s : StackWatermark) (g : Nat) (f : Frame) : Bool :=
  if s.stateEpoch ≠ g then false
  else if s.stateDone then true
  else
    match s.iterator with
    | some it => decide (f.resolvedSp < it.caller)
    | none => true

/-- The frames handed to the processing callback, in order, within an
event trace. -/
def visitedOf (evs : List WEvent) : List Frame :=
  evs.filterMap fun e =>
    match e with
    | WEvent.processFrame f => some f
    | _ => none

/-! ## Specification-side characterizations -/

/-- The frames one `StackWatermarkIterator::process_one` call visits:
consecutive frames up to and including the first barrier frame, or all
remaining frames when no barrier frame remains. -/
def takeThroughBarrier : List Frame → List Frame
  | [] => []
  | f :: rest => if f.barrier then [f] else f :: takeThroughBarrier rest

/-- The frames left after one `process_one` call. -/
def dropThroughBarrier : List Frame → List Frame
  | [] => []
  | f :: rest => if f.barrier then rest else dropThroughBarrier rest

/-- The frames visited by `n` successive `process_one` calls. -/
def barrierSegments : Nat → List Frame → List Frame
  | 0, _ => []
  | n + 1, fs => takeThroughBarrier fs ++ barrierSegments n (dropThroughBarrier fs)

/-- `n` successive `process_one` calls on a cursor. -/
def stepCursor : Nat → StackWatermarkIterator → StackWatermarkIterator
  | 0, it => it
  | n + 1, it => stepCursor n it.processOne.1

/-- One fold of an address into the `(callee, caller)` pair, as
`set_watermark` performs it when the stream still has frames. -/
def ringStep (p : Nat × Nat) (sp : Nat) : Nat × Nat :=
  if p.1 = 0 then (sp, p.2) else if p.2 = 0 then (p.1, sp) else (p.2, sp)

/-- The addresses `process_all` folds into the boundary pair: the
addresses of barrier frames that are not the last frame of the stream
(for the last frame, `set_watermark` is a no-op because the stream is
already done). -/
def barrierFoldAddrs : List Frame → List Nat
  | [] => []
  | f :: rest =>
    if f.barrier && !rest.isEmpty then f.sp :: barrierFoldAddrs rest
    else barrierFoldAddrs rest

/-- Positional ring folding once both slots are occupied: each further
address shifts the pair. -/
def specRingGo (x y : Nat) : List Nat → Nat × Nat
  | [] => (x, y)
  | z :: rest => specRingGo y z rest

/-- Positional ring folding from an empty pair: the first address sets
`callee`, the second sets `caller`, each subsequent one shifts. -/
def specRing : List Nat → Nat × Nat
  | [] => (0, 0)
  | [a] => (a, 0)
  | a :: b :: rest => specRingGo a b rest

/-- Checks the cooperative-yield discipline of a `process_all` event
trace: with `c` barrier frames processed since the last yield, each
barrier visit increments the count, and upon the fifth the very next
events must be the two publication stores followed by the lock release
and reacquire, after which the count resets. -/
def drainEventsOk : List WEvent → Nat → Bool
  | [], _ => true
  | WEvent.processFrame f :: rest, c =>
    if f.barrier then
      if c + 1 = 5 then
        match rest with
        | WEvent.storeWatermark _ :: WEvent.storeState _ _ ::
            WEvent.unlock :: WEvent.lock :: rest2 => drainEventsOk rest2 0
        | _ => false
      else drainEventsOk rest (c + 1)
    else drainEventsOk rest c
  | WEvent.storeWatermark _ :: _, _ => false
  | WEvent.storeState _ _ :: _, _ => false
  | WEvent.unlock :: _, _ => false
  | WEvent.lock :: _, _ => false

/-- Environment assumption: every frame address is nonzero (a machine
stack pointer is never the null address, which the code reserves as the
"no watermark" marker). -/
def allPos (fs : List Frame) : Prop := ∀ f ∈ fs, f.sp ≠ 0

/-- Well-formedness of a stored cursor: its frames have machine-valid
addresses, and whenever unvisited frames remain, a callee boundary has
been recorded (the `assert(_iterator->callee() != 0)` of
`update_watermark`). -/
def iterWf : Option StackWatermarkIterator → Prop
  | some it => allPos it.frames ∧ (it.frames ≠ [] → it.callee ≠ 0)
  | none => True

/-- Inductive invariant of the controller: the published watermark is 0
exactly when the state word says done, and the stored cursor is
well-formed. -/
def Wf (s : StackWatermark) : Prop :=
  (s.watermark = 0 ↔ s.stateDone = true) ∧ iterWf s.iterator

/-! ## Lemmas about the frame-visiting loop -/

lemma processOneLoop_visited (fs : List Frame) (sp : Nat) :
    (processOneLoop fs sp).2.2 = takeThroughBarrier fs := by
  induction fs generalizing sp with
  | nil => rfl
  | cons f rest ih =>
    simp only [processOneLoop, takeThroughBarrier]
    by_cases hb : f.barrier
    · simp [hb]
    · simp [hb, ih]

lemma processOneLoop_remaining (fs : List Frame) (sp : Nat) :
    (processOneLoop fs sp).1 = dropThroughBarrier fs := by
  induction fs generalizing sp with
  | nil => rfl
  | cons f rest ih =>
    simp only [processOneLoop, dropThroughBarrier]
    by_cases hb : f.barrier
    · simp [hb]
    · simp [hb, ih]

lemma iterProcessOne_visited (it : StackWatermarkIterator) :
    it.processOne.2 = takeThroughBarrier it.frames := by
  simp [StackWatermarkIterator.processOne, processOneLoop_visited]

lemma setWatermark_frames (it : StackWatermarkIterator) (sp : Nat) :
    (it.setWatermark sp).frames = it.frames := by
  unfold StackWatermarkIterator.setWatermark
  split <;> try rfl
  split <;> try rfl
  split <;> rfl

lemma iterProcessOne_frames (it : StackWatermarkIterator) :
    it.processOne.1.frames = dropThroughBarrier it.frames := by
  simp [StackWatermarkIterator.processOne, setWatermark_frames, processOneLoop_remaining]

lemma dropThroughBarrier_subset (fs : List Frame) :
    ∀ f ∈ dropThroughBarrier fs, f ∈ fs := by
  induction fs with
  | nil => simp [dropThroughBarrier]
  | cons g rest ih =>
    intro f hf
    simp only [dropThroughBarrier] at hf
    by_cases hb : g.barrier
    · simp only [hb, if_pos] at hf
      exact List.mem_cons_of_mem _ hf
    · simp only [hb] at hf
      exact List.mem_cons_of_mem _ (ih f (by simpa using hf))

lemma processOneLoop_broke_on_barrier (fs : List Frame) (sp : Nat)
    (h : (processOneLoop fs sp).1 ≠ []) :
    ∃ f, f ∈ fs ∧ f.barrier = true ∧ (processOneLoop fs sp).2.1 = f.sp := by
  induction fs generalizing sp with
  | nil => simp [processOneLoop] at h
  | cons f rest ih =>
    by_cases hb : f.barrier
    · exact ⟨f, List.mem_cons_self _ _, hb, by simp [processOneLoop, hb]⟩
    · simp only [processOneLoop, hb, Bool.false_eq_true, if_false] at h ⊢
      obtain ⟨f1, hmem, hbar, hsp⟩ := ih f.sp h
      exact ⟨f1, List.mem_cons_of_mem _ hmem, hbar, hsp⟩

/-! ## Lemmas about `set_watermark` and the ring fold -/

lemma setWatermark_of_ne_nil (c r : Nat) (rest : List Frame) (sp : Nat) (h : rest ≠ []) :
    StackWatermarkIterator.setWatermark ⟨c, r, rest⟩ sp =
      ⟨(ringStep (c, r) sp).1, (ringStep (c, r) sp).2, rest⟩ := by
  have hne : (StackWatermarkIterator.mk c r rest).hasNext = true := by
    unfold StackWatermarkIterator.hasNext
    simpa using h
  unfold StackWatermarkIterator.setWatermark ringStep
  rw [hne]
  by_cases hc : c = 0
  · simp [hc]
  · by_cases hr : r = 0 <;> simp [hc, hr]

lemma setWatermark_of_nil (c r : Nat) (sp : Nat) :
    StackWatermarkIterator.setWatermark ⟨c, r, []⟩ sp = ⟨c, r, []⟩ := by
  unfold StackWatermarkIterator.setWatermark StackWatermarkIterator.hasNext
  simp

lemma setWatermark_callee_ne_zero (c r : Nat) (rest : List Frame) (sp : Nat)
    (hrest : rest ≠ []) (hsp : sp ≠ 0) :
    (StackWatermarkIterator.setWatermark ⟨c, r, rest⟩ sp).callee ≠ 0 := by
  rw [setWatermark_of_ne_nil c r rest sp hrest]
  unfold ringStep
  by_cases hc : c = 0
  · simpa [hc] using hsp
  · by_cases hr : r = 0 <;> simp [hc, hr]

lemma iterProcessOne_callee_ne_zero (it : StackWatermarkIterator)
    (hpos : allPos it.frames) (h : it.processOne.1.frames ≠ []) :
    it.processOne.1.callee ≠ 0 := by
  have h2 : (processOneLoop it.frames 0).1 ≠ [] := by
    unfold StackWatermarkIterator.processOne at h
    simpa [setWatermark_frames] using h
  obtain ⟨f, hmem, _, hsp⟩ := processOneLoop_broke_on_barrier it.frames 0 h2
  unfold StackWatermarkIterator.processOne
  show (StackWatermarkIterator.setWatermark
      ⟨it.callee, it.caller, (processOneLoop it.frames 0).1⟩
      (processOneLoop it.frames 0).2.1).callee ≠ 0
  rw [hsp]
  exact setWatermark_callee_ne_zero _ _ _ _ h2 (hpos f hmem)

lemma iterProcessOne_allPos (it : StackWatermarkIterator) (hpos : allPos it.frames) :
    allPos it.processOne.1.frames := by
  intro f hf
  rw [iterProcessOne_frames] at hf
  rw [← processOneLoop_remaining it.frames 0] at hf
  refine hpos f ?_
  rw [processOneLoop_remaining] at hf
  exact dropThroughBarrier_subset it.frames f hf

lemma iterProcessOne_wf (it : StackWatermarkIterator) (hpos : allPos it.frames) :
    iterWf (some it.processOne.1) :=
  ⟨iterProcessOne_allPos it hpos, iterProcessOne_callee_ne_zero it hpos⟩

/-! ## Lemmas about `update_watermark` -/

lemma updateWatermark_iterator (s : StackWatermark) (g : Nat) :
    (s.updateWatermark g).1.iterator = s.iterator := by
  unfold StackWatermark.updateWatermark
  match s.iterator with
  | some it =>
    by_cases h : it.hasNext <;> simp [h]
  | none => simp

lemma updateWatermark_epoch (s : StackWatermark) (g : Nat) :
    (s.updateWatermark g).1.stateEpoch = g := by
  unfold StackWatermark.updateWatermark
  match s.iterator with
  | some it =>
    by_cases h : it.hasNext <;> simp [h]
  | none => simp

lemma updateWatermark_inv (s : StackWatermark) (g : Nat) (hwf : iterWf s.iterator) :
    ((s.updateWatermark g).1.watermark = 0 ↔ (s.updateWatermark g).1.stateDone = true) := by
  unfold StackWatermark.updateWatermark
  match hit : s.iterator with
  | some it =>
    by_cases h : it.hasNext
    · have hne : it.frames ≠ [] := by
        unfold StackWatermarkIterator.hasNext at h
        simpa using h
      rw [hit] at hwf
      have hc : it.callee ≠ 0 := hwf.2 hne
      simp [h, hc]
    · simp [h]
  | none => simp

lemma updateWatermark_wf (s : StackWatermark) (g : Nat) (hwf : iterWf s.iterator) :
    Wf (s.updateWatermark g).1 := by
  refine ⟨updateWatermark_inv s g hwf, ?_⟩
  rw [updateWatermark_iterator]
  exact hwf

lemma updateWatermark_done_of_not_hasNext (s : StackWatermark) (g : Nat)
    (h : itHasNext s.iterator = false) :
    (s.updateWatermark g).1.stateDone = true ∧ (s.updateWatermark g).1.watermark = 0 ∧
      (s.updateWatermark g).2 = [WEvent.storeWatermark 0, WEvent.storeState g true] := by
  unfold StackWatermark.updateWatermark
  unfold itHasNext at h
  match hit : s.iterator with
  | some it =>
    rw [hit] at h
    have h2 : it.hasNext = false := h
    simp [h2]
  | none => simp

lemma updateWatermark_events_shape (s : StackWatermark) (g : Nat) :
    ∃ v d, (s.updateWatermark g).2 = [WEvent.storeWatermark v, WEvent.storeState g d] := by
  unfold StackWatermark.updateWatermark
  match s.iterator with
  | some it =>
    by_cases h : it.hasNext
    · exact ⟨it.callee, false, by simp [h]⟩
    · exact ⟨0, true, by simp [h]⟩
  | none => exact ⟨0, true, by simp⟩

/-! ## Lemmas about the `process_all` loop -/

lemma processAllAux_iterator (g : Nat) (fs : List Frame) :
    ∀ c r i s, (processAllAux g fs c r i s).1.iterator =
      some ⟨(List.foldl ringStep (c, r) (barrierFoldAddrs fs)).1,
            (List.foldl ringStep (c, r) (barrierFoldAddrs fs)).2, []⟩ := by
  induction fs with
  | nil =>
    intro c r i s
    simp [processAllAux, barrierFoldAddrs]
  | cons f rest ih =>
    intro c r i s
    by_cases hb : f.barrier
    · by_cases hrest : rest = []
      · subst hrest
        by_cases hi : i + 1 = 5 <;>
          simp [processAllAux, hb, hi, setWatermark_of_nil, barrierFoldAddrs, ih]
      · have hset := setWatermark_of_ne_nil c r rest f.sp hrest
        by_cases hi : i + 1 = 5 <;>
          simp [processAllAux, hb, hi, hset, barrierFoldAddrs, hrest, ih]
    · simp [processAllAux, hb, barrierFoldAddrs, ih]

lemma processAllAux_visited (g : Nat) (fs : List Frame) :
    ∀ c r i s, visitedOf (processAllAux g fs c r i s).2.1 = fs := by
  induction fs with
  | nil =>
    intro c r i s
    simp [processAllAux, visitedOf]
  | cons f rest ih =>
    intro c r i s
    by_cases hb : f.barrier
    · by_cases hi : i + 1 = 5
      · obtain ⟨v, d, hu⟩ := updateWatermark_events_shape
          { s with iterator := some (StackWatermarkIterator.setWatermark ⟨c, r, rest⟩ f.sp) } g
        simp [processAllAux, hb, hi, hu, visitedOf]
        exact ih _ _ _ _
      · simp [processAllAux, hb, hi, visitedOf]
        exact ih _ _ _ _
    · simp [processAllAux, hb, visitedOf]
      exact ih _ _ _ _

lemma processAllAux_drainOk (g : Nat) (fs : List Frame) :
    ∀ c r i s, i < 5 → drainEventsOk (processAllAux g fs c r i s).2.1 i = true := by
  induction fs with
  | nil =>
    intro c r i s _
    simp [processAllAux, drainEventsOk]
  | cons f rest ih =>
    intro c r i s hi5
    by_cases hb : f.barrier
    · by_cases hi : i + 1 = 5
      · obtain ⟨v, d, hu⟩ := updateWatermark_events_shape
          { s with iterator := some (StackWatermarkIterator.setWatermark ⟨c, r, rest⟩ f.sp) } g
        have hrec := ih (StackWatermarkIterator.setWatermark ⟨c, r, rest⟩ f.sp).callee
          (StackWatermarkIterator.setWatermark ⟨c, r, rest⟩ f.sp).caller 0
          (StackWatermark.updateWatermark
            { s with iterator := some (StackWatermarkIterator.setWatermark ⟨c, r, rest⟩ f.sp) } g).1
          (by omega)
        simp [processAllAux, hb, hi, hu, drainEventsOk, hrec]
      · have hlt : i + 1 < 5 := by omega
        have hrec := ih (StackWatermarkIterator.setWatermark ⟨c, r, rest⟩ f.sp).callee
          (StackWatermarkIterator.setWatermark ⟨c, r, rest⟩ f.sp).caller (i + 1)
          { s with iterator := some (StackWatermarkIterator.setWatermark ⟨c, r, rest⟩ f.sp) } hlt
        simp [processAllAux, hb, hi]
        unfold drainEventsOk
        simp [hb, hi, hrec]
    · have hrec := ih c r i { s with iterator := some ⟨c, r, rest⟩ } hi5
      simp [processAllAux, hb]
      unfold drainEventsOk
      simp [hb, hrec]

lemma processAllAux_assertsOk (g : Nat) (fs : List Frame) :
    ∀ c r i s, List.Pairwise (fun a b : Frame => a.sp ≤ b.sp) fs →
      (∀ f ∈ fs, r ≤ f.sp) → (processAllAux g fs c r i s).2.2 = true := by
  induction fs with
  | nil =>
    intro c r i s _ _
    simp [processAllAux]
  | cons f rest ih =>
    intro c r i s hpw hcall
    have hok : r ≤ f.sp := hcall f (List.mem_cons_self f rest)
    have hpw2 := (List.pairwise_cons.mp hpw).2
    have hfle := (List.pairwise_cons.mp hpw).1
    by_cases hb : f.barrier
    · by_cases hrest : rest = []
      · subst hrest
        by_cases hi : i + 1 = 5 <;>
          simp [processAllAux, hb, hi, setWatermark_of_nil, hok,
            ih _ _ _ _ hpw2 (by simp)]
      · have hset := setWatermark_of_ne_nil c r rest f.sp hrest
        have hcall2 : ∀ x ∈ rest, (ringStep (c, r) f.sp).2 ≤ x.sp := by
          intro x hx
          unfold ringStep
          by_cases hc : c = 0
          · simpa [hc] using hcall x (List.mem_cons_of_mem f hx)
          · by_cases hr : r = 0 <;> simpa [hc, hr] using hfle x hx
        by_cases hi : i + 1 = 5 <;>
          simp [processAllAux, hb, hi, hset, hok, ih _ _ _ _ hpw2 hcall2]
    · have hcall2 : ∀ x ∈ rest, r ≤ x.sp := fun x hx => hcall x (List.mem_cons_of_mem f hx)
      simp [processAllAux, hb, hok, ih _ _ _ _ hpw2 hcall2]

/-! ## Ring-fold discipline -/

lemma foldl_ringStep_go (sps : List Nat) :
    ∀ x y, x ≠ 0 → y ≠ 0 → (∀ z ∈ sps, z ≠ 0) →
      List.foldl ringStep (x, y) sps = specRingGo x y sps := by
  induction sps with
  | nil => intro x y _ _ _; rfl
  | cons z rest ih =>
    intro x y hx hy hall
    have hz : z ≠ 0 := hall z (List.mem_cons_self z rest)
    have hstep : ringStep (x, y) z = (y, z) := by
      unfold ringStep
      simp [hx, hy]
    simp only [List.foldl_cons, hstep, specRingGo]
    exact ih y z hy hz (fun w hw => hall w (List.mem_cons_of_mem z hw))

lemma foldl_ringStep_spec (sps : List Nat) (hall : ∀ z ∈ sps, z ≠ 0) :
    List.foldl ringStep (0, 0) sps = specRing sps := by
  match sps with
  | [] => rfl
  | [a] =>
    simp [ringStep, specRing]
  | a :: b :: rest =>
    have ha : a ≠ 0 := hall a (by simp)
    have hb : b ≠ 0 := hall b (by simp)
    have h1 : ringStep (0, 0) a = (a, 0) := by
      unfold ringStep
      simp
    have h2 : ringStep (a, 0) b = (a, b) := by
      unfold ringStep
      simp [ha]
    simp only [List.foldl_cons, h1, h2, specRing]
    exact foldl_ringStep_go rest a b ha hb (fun w hw => hall w (by simp [hw]))

/-! ## Preservation of the controller invariant by the public operations -/

lemma stepCursor_allPos (n : Nat) : ∀ it : StackWatermarkIterator,
    allPos it.frames → allPos (stepCursor n it).frames := by
  induction n with
  | zero => intro it h; exact h
  | succ n ih => intro it h; exact ih _ (iterProcessOne_allPos it h)

lemma stepCursor_callee_ne_zero (n : Nat) : ∀ it : StackWatermarkIterator,
    allPos it.frames → (it.frames ≠ [] → it.callee ≠ 0) →
    ((stepCursor n it).frames ≠ [] → (stepCursor n it).callee ≠ 0) := by
  induction n with
  | zero => intro it _ hc; exact hc
  | succ n ih =>
    intro it h _
    exact ih _ (iterProcessOne_allPos it h) (iterProcessOne_callee_ne_zero it h)

lemma mkStackWatermark_wf (e : Nat) : Wf (mkStackWatermark e) := by
  constructor
  · simp [mkStackWatermark]
  · trivial

lemma startIterationImpl_wf (s : StackWatermark) (g : Nat) (stack : List Frame)
    (hstack : allPos stack) : Wf (s.startIterationImpl g stack).1 := by
  unfold StackWatermark.startIterationImpl
  by_cases he : stack.isEmpty
  · simp only [he, if_true]
    exact updateWatermark_wf _ g trivial
  · simp only [he, Bool.false_eq_true, if_false]
    refine updateWatermark_wf _ g ?_
    constructor
    · exact stepCursor_allPos 3 ⟨0, 0, stack⟩ hstack
    · exact stepCursor_callee_ne_zero 2 _
        (iterProcessOne_allPos ⟨0, 0, stack⟩ hstack)
        (iterProcessOne_callee_ne_zero ⟨0, 0, stack⟩ hstack)

lemma processOne_wf (s : StackWatermark) (g : Nat) (stack : List Frame)
    (hs : Wf s) (hstack : allPos stack) : Wf (s.processOne g stack).1 := by
  unfold StackWatermark.processOne
  by_cases hst : s.shouldStartIteration g
  · simp only [hst, if_true]
    exact startIterationImpl_wf s g stack hstack
  · simp only [hst, Bool.false_eq_true, if_false]
    match hit : s.iterator with
    | some it =>
      have hipos : allPos it.frames := by
        have h2 := hs.2
        rw [hit] at h2
        exact h2.1
      exact updateWatermark_wf _ g
        ⟨iterProcessOne_allPos it hipos, iterProcessOne_callee_ne_zero it hipos⟩
    | none => exact hs

lemma startIteration_wf (s : StackWatermark) (g : Nat) (stack : List Frame)
    (hs : Wf s) (hstack : allPos stack) : Wf (s.startIteration g stack).1 := by
  unfold StackWatermark.startIteration
  by_cases hst : s.shouldStartIteration g
  · simp only [hst, if_true]
    exact startIterationImpl_wf s g stack hstack
  · simp only [hst, Bool.false_eq_true, if_false]
    exact hs

lemma finishIteration_wf (s : StackWatermark) (g : Nat) (stack : List Frame) :
    Wf (s.finishIteration g stack).1 := by
  unfold StackWatermark.finishIteration
  cases hit : (if s.shouldStartIteration g then s.startIterationImpl g stack else (s, [])).1.iterator with
  | some it =>
    simp only [hit]
    refine updateWatermark_wf _ g ?_
    rw [processAllAux_iterator]
    constructor
    · intro f hf
      simp at hf
    · intro h
      exact (h rfl).elim
  | none =>
    simp only [hit]
    refine updateWatermark_wf _ g ?_
    rw [hit]
    trivial

/-! ## Helper lemmas about visit traces -/

lemma visitedOf_append (a b : List WEvent) :
    visitedOf (a ++ b) = visitedOf a ++ visitedOf b := by
  simp [visitedOf]

lemma visitedOf_map (l : List Frame) :
    visitedOf (l.map WEvent.processFrame) = l := by
  induction l with
  | nil => rfl
  | cons f rest ih =>
    simp only [visitedOf, List.map_cons, List.filterMap_cons] at ih ⊢
    simpa using ih

lemma visitedOf_updateWatermark (s : StackWatermark) (g : Nat) :
    visitedOf (s.updateWatermark g).2 = [] := by
  obtain ⟨v, d, hu⟩ := updateWatermark_events_shape s g
  simp [hu, visitedOf]

lemma mem_of_mem_visitedOf (evs : List WEvent) (f : Frame) (h : f ∈ visitedOf evs) :
    WEvent.processFrame f ∈ evs := by
  unfold visitedOf at h
  obtain ⟨e, he, hmatch⟩ := List.mem_filterMap.mp h
  cases e <;> simp_all

lemma barrierFoldAddrs_mem (fs : List Frame) :
    ∀ a ∈ barrierFoldAddrs fs, ∃ f, f ∈ fs ∧ f.barrier = true ∧ a = f.sp := by
  induction fs with
  | nil => simp [barrierFoldAddrs]
  | cons f rest ih =>
    intro a ha
    rw [barrierFoldAddrs] at ha
    by_cases hb : (f.barrier && !rest.isEmpty) = true
    · rw [if_pos hb] at ha
      rcases List.mem_cons.mp ha with h | h
      · have hfb : f.barrier = true := by
          revert hb
          cases f.barrier <;> simp
        exact ⟨f, List.mem_cons_self f rest, hfb, h⟩
      · obtain ⟨f1, hm, hb1, he⟩ := ih a h
        exact ⟨f1, List.mem_cons_of_mem f hm, hb1, he⟩
    · rw [if_neg hb] at ha
      obtain ⟨f1, hm, hb1, he⟩ := ih a ha
      exact ⟨f1, List.mem_cons_of_mem f hm, hb1, he⟩

/-! ## The claims -/

/-- C1 (counterexample): the claim says `isFrameSafe` returns true
whenever the cached epoch is stale; in the code the very first check of
`is_frame_safe` returns false when the cached epoch differs from the
global epoch.  Here the controller caches epoch 0 (and is even done),
the global epoch is 1, and the query on a frame at address 100 returns
false. -/
theorem c1_counterexample :
    StackWatermark.isFrameSafe (mkStackWatermark 0) 1 ⟨100, false, false, 0⟩ = false := by
  decide

/-- C1 (amended): `is_frame_safe` returns false (not true) when the
cached epoch is stale; when current it returns true if done, and when an
iteration is active it returns true exactly when the frame's resolved
address (the sender's address for a safepoint-blob frame, the frame's
own otherwise) is strictly below the cursor's caller boundary. -/
theorem c1_isFrameSafe_characterization (s : StackWatermark) (g : Nat) (f : Frame) :
    (s.stateEpoch ≠ g → s.isFrameSafe g f = false) ∧
    (s.stateEpoch = g → s.stateDone = true → s.isFrameSafe g f = true) ∧
    (∀ it, s.stateEpoch = g → s.stateDone = false → s.iterator = some it →
      (s.isFrameSafe g f = true ↔ f.resolvedSp < it.caller)) := by
  refine ⟨?_, ?_, ?_⟩
  · intro h
    unfold StackWatermark.isFrameSafe
    simp [h]
  · intro h hd
    unfold StackWatermark.isFrameSafe
    simp [h, hd]
  · intro it h hd hit
    unfold StackWatermark.isFrameSafe
    simp [h, hd, hit]

/-- Witness for C1: a current-epoch, not-done controller whose cursor
has caller boundary 10 reports a frame at address 5 as safe. -/
theorem c1_witness :
    StackWatermark.isFrameSafe ⟨0, false, 7, some ⟨7, 10, [⟨12, true, false, 0⟩]⟩⟩ 0
      ⟨5, false, false, 0⟩ = true :=
  ((c1_isFrameSafe_characterization ⟨0, false, 7, some ⟨7, 10, [⟨12, true, false, 0⟩]⟩⟩ 0
      ⟨5, false, false, 0⟩).2.2 ⟨7, 10, [⟨12, true, false, 0⟩]⟩ rfl rfl rfl).mpr (by decide)

/-- C2 (counterexample): the claim says a non-stale `process_one` with an
active cursor visits exactly one frame; on a cursor whose next frame has
no barrier and whose second frame does, a single call visits both
frames. -/
theorem c2_counterexample :
    visitedOf (StackWatermark.processOne
      ⟨0, false, 7, some ⟨3, 9, [⟨4, false, false, 0⟩, ⟨5, true, false, 0⟩]⟩⟩ 0 []).2 =
      [⟨4, false, false, 0⟩, ⟨5, true, false, 0⟩] := by
  decide

/-- C2 (amended): if the cached epoch is stale, `process_one` starts a
new iteration; otherwise, with a cursor present, it makes exactly one
single-step call on the cursor — which visits consecutive frames up to
and including the first barrier frame, or all remaining frames if no
barrier frame remains — and then calls `update_watermark`. -/
theorem c2_processOne_characterization (s : StackWatermark) (g : Nat) (stack : List Frame) :
    (s.shouldStartIteration g = true → s.processOne g stack = s.startIterationImpl g stack) ∧
    (∀ it, s.shouldStartIteration g = false → s.iterator = some it →
      visitedOf (s.processOne g stack).2 = takeThroughBarrier it.frames ∧
      (s.processOne g stack).1 =
        (StackWatermark.updateWatermark { s with iterator := some it.processOne.1 } g).1 ∧
      (s.processOne g stack).2 =
        (takeThroughBarrier it.frames).map WEvent.processFrame ++
          (StackWatermark.updateWatermark { s with iterator := some it.processOne.1 } g).2) := by
  constructor
  · intro h
    unfold StackWatermark.processOne
    simp [h]
  · intro it h hit
    unfold StackWatermark.processOne
    simp only [h, Bool.false_eq_true, if_false, hit]
    refine ⟨?_, ?_, ?_⟩
    · rw [visitedOf_append, visitedOf_map, visitedOf_updateWatermark,
        iterProcessOne_visited, List.append_nil]
    · trivial
    · rw [iterProcessOne_visited]

/-- Witness for C2: a current-epoch controller whose cursor starts with a
barrier-less frame followed by a barrier frame; the single-step call
visits both, i.e. the segment through the first barrier frame. -/
theorem c2_witness :
    visitedOf (StackWatermark.processOne
      ⟨0, false, 7, some ⟨3, 9, [⟨4, false, false, 0⟩, ⟨5, true, false, 0⟩]⟩⟩ 0 []).2 =
      takeThroughBarrier [⟨4, false, false, 0⟩, ⟨5, true, false, 0⟩] :=
  ((c2_processOne_characterization
      ⟨0, false, 7, some ⟨3, 9, [⟨4, false, false, 0⟩, ⟨5, true, false, 0⟩]⟩⟩ 0 []).2
    ⟨3, 9, [⟨4, false, false, 0⟩, ⟨5, true, false, 0⟩]⟩ rfl rfl).1

/-- C3 (counterexample): the claim says a thread with frames has its new
cursor advanced by exactly three frames; on a one-frame stack the call
visits exactly one frame (the three single-step calls cannot visit more
frames than exist, and each call may also visit several). -/
theorem c3_counterexample :
    (visitedOf ((mkStackWatermark 0).startIterationImpl 1 [⟨1, true, false, 0⟩]).2).length = 1 := by
  decide

/-- C3 (amended): if the thread has frames, `start_iteration_impl`
invokes the new cursor's single-step advance exactly three times — so
the visited frames are the first three barrier segments of the stack,
not necessarily three frames; if the thread has no frames, no cursor is
created and the state is immediately marked done for the current epoch;
in both cases the call ends by invoking `update_watermark`. -/
theorem c3_startIterationImpl_characterization (s : StackWatermark) (g : Nat)
    (stack : List Frame) :
    (stack = [] →
      (s.startIterationImpl g stack).1.iterator = none ∧
      (s.startIterationImpl g stack).1.stateDone = true ∧
      (s.startIterationImpl g stack).1.stateEpoch = g ∧
      (s.startIterationImpl g stack).1.watermark = 0 ∧
      (s.startIterationImpl g stack).2 =
        (StackWatermark.updateWatermark { s with iterator := none } g).2) ∧
    (stack ≠ [] →
      visitedOf (s.startIterationImpl g stack).2 = barrierSegments 3 stack ∧
      (s.startIterationImpl g stack).1 =
        (StackWatermark.updateWatermark
          { s with iterator := some (stepCursor 3 ⟨0, 0, stack⟩) } g).1 ∧
      (s.startIterationImpl g stack).2 =
        (barrierSegments 3 stack).map WEvent.processFrame ++
          (StackWatermark.updateWatermark
            { s with iterator := some (stepCursor 3 ⟨0, 0, stack⟩) } g).2) := by
  constructor
  · intro h
    subst h
    unfold StackWatermark.startIterationImpl
    simp [StackWatermark.updateWatermark, itHasNext]
  · intro h
    have hne : stack.isEmpty = false := by
      cases stack with
      | nil => exact absurd rfl h
      | cons a l => rfl
    have hsc : stepCursor 3 (⟨0, 0, stack⟩ : StackWatermarkIterator) =
        (StackWatermarkIterator.processOne
          ⟨0, 0, stack⟩).1.processOne.1.processOne.1 := rfl
    have hseg : (StackWatermarkIterator.processOne ⟨0, 0, stack⟩).2 ++
        ((StackWatermarkIterator.processOne ⟨0, 0, stack⟩).1.processOne.2 ++
          (StackWatermarkIterator.processOne
            ⟨0, 0, stack⟩).1.processOne.1.processOne.2) = barrierSegments 3 stack := by
      simp [iterProcessOne_visited, iterProcessOne_frames, barrierSegments]
    unfold StackWatermark.startIterationImpl
    simp only [hne, Bool.false_eq_true, if_false]
    refine ⟨?_, ?_, ?_⟩
    · rw [visitedOf_append, visitedOf_map, visitedOf_updateWatermark, List.append_nil,
        List.append_assoc, hseg]
    · rw [hsc]
    · rw [hsc, List.append_assoc, hseg]

/-- Witness for C3: on a four-barrier-frame stack the bootstrap visits
the first three barrier segments (three frames here, one per call), and
on that input the amended characterization applies. -/
theorem c3_witness :
    visitedOf ((mkStackWatermark 0).startIterationImpl 1
      [⟨1, true, false, 0⟩, ⟨2, true, false, 0⟩, ⟨3, true, false, 0⟩, ⟨4, true, false, 0⟩]).2 =
      barrierSegments 3
        [⟨1, true, false, 0⟩, ⟨2, true, false, 0⟩, ⟨3, true, false, 0⟩, ⟨4, true, false, 0⟩] :=
  ((c3_startIterationImpl_characterization (mkStackWatermark 0) 1
      [⟨1, true, false, 0⟩, ⟨2, true, false, 0⟩, ⟨3, true, false, 0⟩, ⟨4, true, false, 0⟩]).2
    (by decide)).1

/-- C4: the published watermark is 0 exactly when the state word reports
done, immediately after construction and after every public operation —
stated as: the invariant `Wf` (whose first component is that
biconditional) holds of a fresh controller and is preserved by
`processOne`, `startIteration` and `finishIteration`, given the
environment assumption that machine frame addresses are nonzero. -/
theorem c4_watermark_zero_iff_done :
    (∀ e : Nat, ((mkStackWatermark e).watermark = 0 ↔ (mkStackWatermark e).stateDone = true) ∧
      Wf (mkStackWatermark e)) ∧
    (∀ s g stack, Wf s → allPos stack →
      ((s.processOne g stack).1.watermark = 0 ↔ (s.processOne g stack).1.stateDone = true) ∧
      Wf (s.processOne g stack).1 ∧
      Wf (s.startIteration g stack).1 ∧
      Wf (s.finishIteration g stack).1) := by
  constructor
  · intro e
    exact ⟨(mkStackWatermark_wf e).1, mkStackWatermark_wf e⟩
  · intro s g stack hs hp
    exact ⟨(processOne_wf s g stack hs hp).1, processOne_wf s g stack hs hp,
      startIteration_wf s g stack hs hp, finishIteration_wf s g stack⟩

/-- Witness for C4: starting from a fresh controller at epoch 0, a
`processOne` at global epoch 1 on a one-frame stack preserves the
watermark-zero-iff-done invariant. -/
theorem c4_witness :
    ((mkStackWatermark 0).processOne 1 [⟨5, true, false, 0⟩]).1.watermark = 0 ↔
      ((mkStackWatermark 0).processOne 1 [⟨5, true, false, 0⟩]).1.stateDone = true :=
  (c4_watermark_zero_iff_done.2 (mkStackWatermark 0) 1 [⟨5, true, false, 0⟩]
    (mkStackWatermark_wf 0) (by simp [allPos])).1

/-- C5: `update_watermark` stores `watermark ← cursor.callee` then
`state ← (epoch, done=false)`, in that order, when a cursor exists with
unvisited frames; otherwise it stores `watermark ← 0` then
`state ← (epoch, done=true)`, in that order.  The event list records the
two release stores in program order. -/
theorem c5_updateWatermark_order (s : StackWatermark) (g : Nat) :
    (∀ it, s.iterator = some it → it.hasNext = true →
      (s.updateWatermark g).2 = [WEvent.storeWatermark it.callee, WEvent.storeState g false] ∧
      (s.updateWatermark g).1.watermark = it.callee ∧
      (s.updateWatermark g).1.stateDone = false ∧
      (s.updateWatermark g).1.stateEpoch = g) ∧
    (itHasNext s.iterator = false →
      (s.updateWatermark g).2 = [WEvent.storeWatermark 0, WEvent.storeState g true] ∧
      (s.updateWatermark g).1.watermark = 0 ∧
      (s.updateWatermark g).1.stateDone = true ∧
      (s.updateWatermark g).1.stateEpoch = g) := by
  constructor
  · intro it hit hn
    unfold StackWatermark.updateWatermark
    simp [hit, hn]
  · intro h
    have h3 := updateWatermark_done_of_not_hasNext s g h
    exact ⟨h3.2.2, h3.2.1, h3.1, updateWatermark_epoch s g⟩

/-- Witness for C5: a controller whose cursor has callee boundary 42 and
one unvisited frame publishes watermark 42 and then not-done for the
global epoch 9, in that order. -/
theorem c5_witness :
    (StackWatermark.updateWatermark ⟨0, false, 7, some ⟨42, 50, [⟨60, true, false, 0⟩]⟩⟩ 9).2 =
      [WEvent.storeWatermark 42, WEvent.storeState 9 false] :=
  ((c5_updateWatermark_order ⟨0, false, 7, some ⟨42, 50, [⟨60, true, false, 0⟩]⟩⟩ 9).1
    ⟨42, 50, [⟨60, true, false, 0⟩]⟩ rfl rfl).1

lemma updateWatermark_after_drain (s0 : StackWatermark) (g : Nat) (it : StackWatermarkIterator) :
    (StackWatermark.updateWatermark
        (processAllAux g it.frames it.callee it.caller 0 s0).1 g).1.stateDone = true ∧
    (StackWatermark.updateWatermark
        (processAllAux g it.frames it.callee it.caller 0 s0).1 g).1.stateEpoch = g ∧
    (StackWatermark.updateWatermark
        (processAllAux g it.frames it.callee it.caller 0 s0).1 g).1.watermark = 0 ∧
    framesOf (StackWatermark.updateWatermark
        (processAllAux g it.frames it.callee it.caller 0 s0).1 g).1 = [] := by
  have hiter := processAllAux_iterator g it.frames it.callee it.caller 0 s0
  have hnn : itHasNext (processAllAux g it.frames it.callee it.caller 0 s0).1.iterator = false := by
    rw [hiter]
    rfl
  have hdone := updateWatermark_done_of_not_hasNext _ g hnn
  refine ⟨hdone.1, updateWatermark_epoch _ g, hdone.2.1, ?_⟩
  unfold framesOf
  rw [updateWatermark_iterator, hiter]

/-- C6: `finish_iteration` always completes the (possibly just-started)
current epoch's iteration: on return the state reports done for the
global epoch, the watermark is 0, the cursor has no unvisited frames
left, and — when called with a current epoch — every frame that was
still pending in the cursor has been handed to the processing
callback. -/
theorem c6_finishIteration_completes (s : StackWatermark) (g : Nat) (stack : List Frame) :
    (s.finishIteration g stack).1.stateDone = true ∧
    (s.finishIteration g stack).1.stateEpoch = g ∧
    (s.finishIteration g stack).1.watermark = 0 ∧
    framesOf (s.finishIteration g stack).1 = [] ∧
    (s.shouldStartIteration g = false →
      ∀ f ∈ framesOf s, WEvent.processFrame f ∈ (s.finishIteration g stack).2.1) := by
  by_cases hst : s.shouldStartIteration g = true
  · simp only [StackWatermark.finishIteration, hst, if_true]
    cases hit : (s.startIterationImpl g stack).1.iterator with
    | some it =>
      simp only [hit]
      have h4 := updateWatermark_after_drain (s.startIterationImpl g stack).1 g it
      refine ⟨h4.1, h4.2.1, h4.2.2.1, h4.2.2.2, ?_⟩
      intro hst2
      exact absurd hst2 (by simp)
    | none =>
      simp only [hit]
      have hnn : itHasNext (s.startIterationImpl g stack).1.iterator = false := by
        rw [hit]
        rfl
      have hdone := updateWatermark_done_of_not_hasNext _ g hnn
      refine ⟨hdone.1, updateWatermark_epoch _ g, hdone.2.1, ?_, ?_⟩
      · unfold framesOf
        rw [updateWatermark_iterator, hit]
      · intro hst2
        exact absurd hst2 (by simp)
  · have hst2 : s.shouldStartIteration g = false := by
      revert hst
      cases s.shouldStartIteration g <;> simp
    simp only [StackWatermark.finishIteration, hst2, Bool.false_eq_true, if_false]
    cases hit : s.iterator with
    | some it =>
      simp only [hit]
      have h4 := updateWatermark_after_drain s g it
      refine ⟨h4.1, h4.2.1, h4.2.2.1, h4.2.2.2, ?_⟩
      intro _ f hf
      have hf2 : f ∈ it.frames := by
        unfold framesOf at hf
        rw [hit] at hf
        exact hf
      have hmem : WEvent.processFrame f ∈
          (processAllAux g it.frames it.callee it.caller 0 s).2.1 :=
        mem_of_mem_visitedOf _ f (by rw [processAllAux_visited]; exact hf2)
      simp [List.mem_append, hmem]
    | none =>
      simp only [hit]
      have hnn : itHasNext s.iterator = false := by
        rw [hit]
        rfl
      have hdone := updateWatermark_done_of_not_hasNext _ g hnn
      refine ⟨hdone.1, updateWatermark_epoch _ g, hdone.2.1, ?_, ?_⟩
      · unfold framesOf
        rw [updateWatermark_iterator, hit]
      · intro _ f hf
        unfold framesOf at hf
        rw [hit] at hf
        exact absurd hf (List.not_mem_nil f)

/-- Witness for C6: a current-epoch controller with two pending frames;
`finish_iteration` hands the first pending frame to the processing
callback. -/
theorem c6_witness :
    WEvent.processFrame ⟨4, true, false, 0⟩ ∈
      (StackWatermark.finishIteration
        ⟨0, false, 3, some ⟨3, 0, [⟨4, true, false, 0⟩, ⟨5, true, false, 0⟩]⟩⟩ 0 []).2.1 :=
  ((c6_finishIteration_completes
      ⟨0, false, 3, some ⟨3, 0, [⟨4, true, false, 0⟩, ⟨5, true, false, 0⟩]⟩⟩ 0 []).2.2.2.2
    rfl ⟨4, true, false, 0⟩ (by decide))

/-- C7: a full drain (`process_all`, entered with poll counter 0)
processes frames until none remain, and its event trace obeys the
cooperative-yield discipline: after every fifth barrier frame it
publishes the boundary (the two release stores of `update_watermark`)
and releases then reacquires the lock, so no more than five barrier
frames are ever processed between yield points. -/
theorem c7_processAll_yield_discipline (g : Nat) (fs : List Frame) (c r : Nat)
    (s : StackWatermark) :
    drainEventsOk (processAllAux g fs c r 0 s).2.1 0 = true ∧
    framesOf (processAllAux g fs c r 0 s).1 = [] := by
  constructor
  · exact processAllAux_drainOk g fs c r 0 s (by omega)
  · unfold framesOf
    rw [processAllAux_iterator]

/-- C8: only barrier-frame addresses are ever folded into the
`(callee, caller)` boundary pair during a drain (the fold-address list
`barrierFoldAddrs` contains only barrier frames' addresses), and the
folding follows the 2-slot ring discipline: starting from an empty
pair, the first fold sets `callee`, the second sets `caller`, and every
subsequent fold shifts `callee ← caller`, `caller ← new address`. -/
theorem c8_ring_fold_discipline :
    (∀ g fs c r i s, (processAllAux g fs c r i s).1.iterator =
      some ⟨(List.foldl ringStep (c, r) (barrierFoldAddrs fs)).1,
            (List.foldl ringStep (c, r) (barrierFoldAddrs fs)).2, []⟩) ∧
    (∀ fs, ∀ a ∈ barrierFoldAddrs fs, ∃ f, f ∈ fs ∧ f.barrier = true ∧ a = f.sp) ∧
    (∀ sps, (∀ z ∈ sps, z ≠ 0) → List.foldl ringStep (0, 0) sps = specRing sps) :=
  ⟨processAllAux_iterator, barrierFoldAddrs_mem, foldl_ringStep_spec⟩

/-- Witness for C8: folding the nonzero addresses 4, 7, 9 from an empty
pair follows the positional ring discipline, and the single fold-address
3 of a two-frame drain comes from a barrier frame. -/
theorem c8_witness :
    List.foldl ringStep (0, 0) [4, 7, 9] = specRing [4, 7, 9] ∧
    (∃ f : Frame, f ∈ ([⟨3, true, false, 0⟩, ⟨9, true, false, 0⟩] : List Frame) ∧
      f.barrier = true ∧ 3 = f.sp) :=
  ⟨c8_ring_fold_discipline.2.2 [4, 7, 9] (by decide),
   c8_ring_fold_discipline.2.1 ([⟨3, true, false, 0⟩, ⟨9, true, false, 0⟩] : List Frame) 3
     (by decide)⟩

/-- C9: during a drain whose pending frames are ordered from stack top
toward stack bottom (addresses pairwise nondecreasing) and all lie at or
above the cursor's current caller boundary, every
`assert(f.sp() >= _caller)` monotonicity check passes — the assertion
never fires under the walker's top-to-bottom precondition. -/
theorem c9_monotonicity_assert (g : Nat) (fs : List Frame) (c r i : Nat) (s : StackWatermark)
    (hsort : List.Pairwise (fun a b : Frame => a.sp ≤ b.sp) fs)
    (hcall : ∀ f ∈ fs, r ≤ f.sp) :
    (processAllAux g fs c r i s).2.2 = true :=
  processAllAux_assertsOk g fs c r i s hsort hcall

/-- Witness for C9: a two-frame drain with ascending addresses 3, 5 and
caller boundary 2 passes every monotonicity check. -/
theorem c9_witness :
    (processAllAux 0 [⟨3, true, false, 0⟩, ⟨5, false, false, 0⟩] 0 2 0
      (mkStackWatermark 0)).2.2 = true :=
  c9_monotonicity_assert 0 [⟨3, true, false, 0⟩, ⟨5, false, false, 0⟩] 0 2 0
    (mkStackWatermark 0) (by decide) (by decide)

/-- C10: a `process_one` call made while the cached epoch is current but
no cursor exists returns the controller unchanged and performs no
observable action: no processing-callback invocation and no store, so
`update_watermark` is not invoked. -/
theorem c10_processOne_noop (s : StackWatermark) (g : Nat) (stack : List Frame)
    (h1 : s.stateEpoch = g) (h2 : s.iterator = none) :
    s.processOne g stack = (s, []) := by
  have hst : s.shouldStartIteration g = false := by
    unfold StackWatermark.shouldStartIteration
    simp [h1]
  unfold StackWatermark.processOne
  simp [hst, h2]

/-- Witness for C10: a fresh controller at epoch 3 queried at global
epoch 3 with a nonempty thread stack is left untouched and emits no
events. -/
theorem c10_witness :
    (mkStackWatermark 3).processOne 3 [⟨1, true, false, 0⟩] = (mkStackWatermark 3, []) :=
  c10_processOne_noop (mkStackWatermark 3) 3 [⟨1, true, false, 0⟩] rfl rfl
